import Mathlib

/-!
Verification of the CSS selector builder of `src/05-objects-tasks.js`
(`CurrentBuilder`, the `cssSelectorBuilder` facade) and the JSON helper pair
`getJSON` / `fromJSON`.

JavaScript objects are mutated in place and exceptions propagate past the
mutation, so every builder method is embedded as a function returning the
possibly-raised error together with the post-state of the receiver:
`Option SelError × CurrentBuilder` (`none` means no exception was thrown).
-/

/-- The six selector fragment kinds of the builder API.  `cls` stands for the
JavaScript method named `class` (a keyword here). -/
inductive Kind where
  | element
  | id
  | cls
  | attr
  | pseudoClass
  | pseudoElement
deriving DecidableEq, Repr

/-- One fragment append request: a kind together with its opaque value. -/
structure Frag where
  kind : Kind
  value : String
deriving DecidableEq, Repr

/-- The grammar rank each method passes to `testOrder`
(element=0, id=1, class=2, attr=3, pseudoClass=4, pseudoElement=5). -/
def rankK : Kind → Nat
  | .element => 0
  | .id => 1
  | .cls => 2
  | .attr => 3
  | .pseudoClass => 4
  | .pseudoElement => 5

/-- The tag a method passes to `testUniq`; `none` for the repeatable kinds,
whose methods never call `testUniq`. -/
def uniqTag : Kind → Option String
  | .element => some "element"
  | .id => some "id"
  | .pseudoElement => some "pseudoElement"
  | _ => none

/-- The id string the facade passes to the `CurrentBuilder` constructor. -/
def seedName : Kind → String
  | .element => "element"
  | .id => "id"
  | .cls => "class"
  | .attr => "attr"
  | .pseudoClass => "pseudoClass"
  | .pseudoElement => "pseudoElement"

/-- The tags a successful (or uniqueness-passing) append of `f` pushes onto
`singleStack`. -/
def tagsOf (f : Frag) : List String :=
  match uniqTag f.kind with
  | some t => [t]
  | none => []

/-- The CSS-prefixed text of a fragment, exactly as each method pushes it onto
the stack: no prefix, `#`, `.`, `[value]`, `:`, `::`. -/
def prettyK : Kind → String → String
  | .element, v => v
  | .id, v => "#" ++ v
  | .cls, v => "." ++ v
  | .attr, v => "[" ++ v ++ "]"
  | .pseudoClass, v => ":" ++ v
  | .pseudoElement, v => "::" ++ v

/-- `prettyK` applied to a packaged fragment. -/
def prettyFrag (f : Frag) : String := prettyK f.kind f.value

/-- The two error kinds thrown by `testUniq` and `testOrder`. -/
inductive SelError where
  | duplicate
  | outOfOrder
deriving DecidableEq, Repr

/-- The exact `Error` message text attached to each throw in the source. -/
def errMessage : SelError → String
  | .duplicate =>
      "Element, id and pseudo-element should not occur more then one time inside the selector"
  | .outOfOrder =>
      "Selector parts should be arranged in the following order: element, id, class, attribute, pseudo-class, pseudo-element"

/-- State of one `CurrentBuilder` instance: `stack` is the fragment-text
accumulator, `singleStack` the seen-once tags, `order` the `order` field
(`none` models the `undefined` it holds after `new CurrentBuilder(value)` with
no second argument). -/
structure CurrentBuilder where
  stack : List String
  singleStack : List String
  order : Option Nat
deriving DecidableEq, Repr

/-- The `CurrentBuilder` constructor: `stack = [value]`, `singleStack`
holds the id when one is passed (it is truthy in every actual call),
`order` is the passed order (or `undefined`, i.e. `none`). -/
def CurrentBuilder.make (value : String) (ord : Option Nat) (tag : Option String) :
    CurrentBuilder :=
  { stack := [value]
    singleStack := match tag with | some t => [t] | none => []
    order := ord }

/-- `stringify()`: join the stack with no separator, clear the stack, return
the joined string (paired with the cleared post-state). -/
def stringify (b : CurrentBuilder) : String × CurrentBuilder :=
  (String.join b.stack, { b with stack := [] })

/-- `testUniq(value)`: throw the duplicate error when `value` is already in
`singleStack` (`indexOf(value) > -1`), otherwise push it. -/
def testUniq (value : String) (b : CurrentBuilder) : Option SelError × CurrentBuilder :=
  if b.singleStack.contains value then (some .duplicate, b)
  else (none, { b with singleStack := b.singleStack ++ [value] })

/-- `testOrder(value)`: throw the out-of-order error when `value < order`,
otherwise set `order := value`.  When `order` is `undefined` the JavaScript
comparison is false, so the else branch stores `value`. -/
def testOrder (value : Nat) (b : CurrentBuilder) : Option SelError × CurrentBuilder :=
  match b.order with
  | some o =>
      if value < o then (some .outOfOrder, b)
      else (none, { b with order := some value })
  | none => (none, { b with order := some value })

/-- Builder method `element(value)`: `testUniq('element')`, then
`testOrder(0)`, then push `value`. -/
def CurrentBuilder.element (value : String) (b : CurrentBuilder) :
    Option SelError × CurrentBuilder :=
  match testUniq "element" b with
  | (some e, b1) => (some e, b1)
  | (none, b1) =>
    match testOrder 0 b1 with
    | (some e, b2) => (some e, b2)
    | (none, b2) => (none, { b2 with stack := b2.stack ++ [value] })

/-- Builder method `id(value)`: `testUniq('id')`, then `testOrder(1)`, then
push `'#' + value`. -/
def CurrentBuilder.id (value : String) (b : CurrentBuilder) :
    Option SelError × CurrentBuilder :=
  match testUniq "id" b with
  | (some e, b1) => (some e, b1)
  | (none, b1) =>
    match testOrder 1 b1 with
    | (some e, b2) => (some e, b2)
    | (none, b2) => (none, { b2 with stack := b2.stack ++ ["#" ++ value] })

/-- Builder method `class(value)`: `testOrder(2)`, then push `'.' + value`. -/
def CurrentBuilder.cls (value : String) (b : CurrentBuilder) :
    Option SelError × CurrentBuilder :=
  match testOrder 2 b with
  | (some e, b1) => (some e, b1)
  | (none, b1) => (none, { b1 with stack := b1.stack ++ ["." ++ value] })

/-- Builder method `attr(value)`: `testOrder(3)`, then push `'[' + value + ']'`. -/
def CurrentBuilder.attr (value : String) (b : CurrentBuilder) :
    Option SelError × CurrentBuilder :=
  match testOrder 3 b with
  | (some e, b1) => (some e, b1)
  | (none, b1) => (none, { b1 with stack := b1.stack ++ ["[" ++ value ++ "]"] })

/-- Builder method `pseudoClass(value)`: `testOrder(4)`, then push `':' + value`. -/
def CurrentBuilder.pseudoClass (value : String) (b : CurrentBuilder) :
    Option SelError × CurrentBuilder :=
  match testOrder 4 b with
  | (some e, b1) => (some e, b1)
  | (none, b1) => (none, { b1 with stack := b1.stack ++ [":" ++ value] })

/-- Builder method `pseudoElement(value)`: `testOrder(5)` first, then
`testUniq('pseudoElement')`, then push `'::' + value`. -/
def CurrentBuilder.pseudoElement (value : String) (b : CurrentBuilder) :
    Option SelError × CurrentBuilder :=
  match testOrder 5 b with
  | (some e, b1) => (some e, b1)
  | (none, b1) =>
    match testUniq "pseudoElement" b1 with
    | (some e, b2) => (some e, b2)
    | (none, b2) => (none, { b2 with stack := b2.stack ++ ["::" ++ value] })

/-- Instance method `combine(selector1, combinator, selector2)`: stringify both
operands (mutating them), wrap a non-empty combinator in single spaces, and
append the joined string to the receiver's stack.  Returns the receiver
post-state together with the two consumed operand post-states. -/
def CurrentBuilder.combine (b : CurrentBuilder) (s1 : CurrentBuilder) (comb : String)
    (s2 : CurrentBuilder) : CurrentBuilder × CurrentBuilder × CurrentBuilder :=
  let p1 := stringify s1
  let p2 := stringify s2
  let cv := if comb = "" then comb else " " ++ comb ++ " "
  ({ b with stack := b.stack ++ [p1.1 ++ cv ++ p2.1] }, p1.2, p2.2)

/-- Facade `cssSelectorBuilder.element(value)`. -/
def cssSelectorBuilder.element (value : String) : CurrentBuilder :=
  CurrentBuilder.make value (some 0) (some "element")

/-- Facade `cssSelectorBuilder.id(value)`. -/
def cssSelectorBuilder.id (value : String) : CurrentBuilder :=
  CurrentBuilder.make ("#" ++ value) (some 1) (some "id")

/-- Facade `cssSelectorBuilder.class(value)`. -/
def cssSelectorBuilder.cls (value : String) : CurrentBuilder :=
  CurrentBuilder.make ("." ++ value) (some 2) (some "class")

/-- Facade `cssSelectorBuilder.attr(value)`. -/
def cssSelectorBuilder.attr (value : String) : CurrentBuilder :=
  CurrentBuilder.make ("[" ++ value ++ "]") (some 3) (some "attr")

/-- Facade `cssSelectorBuilder.pseudoClass(value)`. -/
def cssSelectorBuilder.pseudoClass (value : String) : CurrentBuilder :=
  CurrentBuilder.make (":" ++ value) (some 4) (some "pseudoClass")

/-- Facade `cssSelectorBuilder.pseudoElement(value)`. -/
def cssSelectorBuilder.pseudoElement (value : String) : CurrentBuilder :=
  CurrentBuilder.make ("::" ++ value) (some 5) (some "pseudoElement")

/-- Facade `cssSelectorBuilder.combine(selector1, combinator, selector2)`:
stringify both operands (mutating them) and seed a fresh builder with the
joined string, no order, no seen-once tags.  Returns the new builder together
with the two consumed operand post-states. -/
def cssSelectorBuilder.combine (s1 : CurrentBuilder) (comb : String) (s2 : CurrentBuilder) :
    CurrentBuilder × CurrentBuilder × CurrentBuilder :=
  let p1 := stringify s1
  let p2 := stringify s2
  let cv := if comb = "" then comb else " " ++ comb ++ " "
  (CurrentBuilder.make (p1.1 ++ cv ++ p2.1) none none, p1.2, p2.2)

/-- Dispatch a fragment append to the corresponding builder method. -/
def appendFrag (f : Frag) (b : CurrentBuilder) : Option SelError × CurrentBuilder :=
  match f.kind with
  | .element => CurrentBuilder.element f.value b
  | .id => CurrentBuilder.id f.value b
  | .cls => CurrentBuilder.cls f.value b
  | .attr => CurrentBuilder.attr f.value b
  | .pseudoClass => CurrentBuilder.pseudoClass f.value b
  | .pseudoElement => CurrentBuilder.pseudoElement f.value b

/-- Dispatch a seeding call to the corresponding facade method. -/
def seedFrag (f : Frag) : CurrentBuilder :=
  match f.kind with
  | .element => cssSelectorBuilder.element f.value
  | .id => cssSelectorBuilder.id f.value
  | .cls => cssSelectorBuilder.cls f.value
  | .attr => cssSelectorBuilder.attr f.value
  | .pseudoClass => cssSelectorBuilder.pseudoClass f.value
  | .pseudoElement => cssSelectorBuilder.pseudoElement f.value

/-- Run a chain of fluent appends; a thrown exception aborts the rest of the
chain, as in JavaScript. -/
def runFrags (b : CurrentBuilder) : List Frag → Option SelError × CurrentBuilder
  | [] => (none, b)
  | f :: fs =>
    match appendFrag f b with
    | (none, b1) => runFrags b1 fs
    | (some e, b1) => (some e, b1)

/-- `okSeqB r seen fs` holds when, starting from current rank `r` and
seen-once tags `seen`, the appends `fs` respect the rank-table order
(non-decreasing ranks) and the seen-once rules. -/
def okSeqB : Nat → List String → List Frag → Bool
  | _, _, [] => true
  | r, seen, f :: fs =>
    decide (r ≤ rankK f.kind) &&
    (match uniqTag f.kind with
     | some t => !(seen.contains t)
     | none => true) &&
    okSeqB (rankK f.kind) (seen ++ tagsOf f) fs

/-- A seeding call `f` followed by appends `fs` respects the rank-table order
and the seen-once rules. -/
def validSeq (f : Frag) (fs : List Frag) : Bool :=
  okSeqB (rankK f.kind) [seedName f.kind] fs

/-- The builder states an actual program run can produce: a facade seeding
call, then any interleaving of (possibly throwing) fluent appends,
stringify calls, and the two combine forms. -/
inductive Reachable : CurrentBuilder → Prop where
  | seed (f : Frag) : Reachable (seedFrag f)
  | fcombine (s1 s2 : CurrentBuilder) (c : String) (h1 : Reachable s1) (h2 : Reachable s2) :
      Reachable (cssSelectorBuilder.combine s1 c s2).1
  | step (f : Frag) (b : CurrentBuilder) (h : Reachable b) : Reachable (appendFrag f b).2
  | consume (b : CurrentBuilder) (h : Reachable b) : Reachable (stringify b).2
  | icombine (b s1 s2 : CurrentBuilder) (c : String) (h : Reachable b) (h1 : Reachable s1)
      (h2 : Reachable s2) : Reachable (CurrentBuilder.combine b s1 c s2).1

/-- The `order` field of a builder never exceeds 5 (the largest rank). -/
def orderBound (b : CurrentBuilder) : Prop :=
  ∀ o, b.order = some o → o ≤ 5

/-! ### JSON values and the serialization primitives used by `getJSON`/`fromJSON`

`getJSON` and `fromJSON` are one-line wrappers around the JavaScript standard
library `JSON.stringify` / `JSON.parse` plus `Object.setPrototypeOf`.  The
stringify/parse pair is not repository code; it is modelled from the spec
("structural JSON serialization equivalent to standard library JSON stringify
with default formatting").  Numbers are modelled as integers (non-integral
JavaScript numbers are floating point and outside the model); strings are
lists of characters. -/

/-- JSON value trees: the payloads `getJSON` and `fromJSON` exchange. -/
inductive Json where
  | jnull : Json
  | jbool (b : Bool) : Json
  | jnum (n : Int) : Json
  | jstr (s : List Char) : Json
  | jarr (xs : List Json) : Json
  | jobj (fs : List (List Char × Json)) : Json
deriving Repr

/-- The decimal digit character for `n < 10`. -/
def digitChar (n : Nat) : Char := Char.ofNat (48 + n)

/-- Fuel-driven decimal printer for naturals (the fuel keeps it structurally
recursive; `printNat` supplies enough). -/
def printNatAux : Nat → Nat → List Char
  | 0, _ => []
  | fuel + 1, n =>
    if n < 10 then [digitChar n]
    else printNatAux fuel (n / 10) ++ [digitChar (n % 10)]

/-- Decimal digits of `n`, as JavaScript prints whole numbers. -/
def printNat (n : Nat) : List Char := printNatAux (n + 1) n

/-- Modelled from the spec: decimal rendering of an integer JSON number. -/
def printInt : Int → List Char
  | .ofNat n => printNat n
  | .negSucc n => '-' :: printNat (n + 1)

/-- JSON string escaping of the quote and backslash characters. -/
def escChar (c : Char) : List Char :=
  if c = '"' then ['\\', '"']
  else if c = '\\' then ['\\', '\\']
  else [c]

/-- A JSON string literal: quote, escaped characters, quote. -/
def printStr (s : List Char) : List Char :=
  '"' :: s.flatMap escChar ++ ['"']

mutual

/-- Modelled from the spec: structural JSON serialization with default
formatting (no whitespace), standing in for the standard library
`JSON.stringify` that `getJSON` delegates to. -/
def printJson : Json → List Char
  | .jnull => ['n', 'u', 'l', 'l']
  | .jbool true => ['t', 'r', 'u', 'e']
  | .jbool false => ['f', 'a', 'l', 's', 'e']
  | .jnum n => printInt n
  | .jstr s => printStr s
  | .jarr xs => '[' :: printArr xs ++ [']']
  | .jobj fs => '\x7b' :: printObj fs ++ ['\x7d']

/-- Comma-separated serialization of array elements. -/
def printArr : List Json → List Char
  | [] => []
  | [x] => printJson x
  | x :: y :: xs => printJson x ++ ',' :: printArr (y :: xs)

/-- Comma-separated serialization of object members as `"key":value`. -/
def printObj : List (List Char × Json) → List Char
  | [] => []
  | [(k, v)] => printStr k ++ ':' :: printJson v
  | (k, v) :: m :: fs => printStr k ++ ':' :: printJson v ++ ',' :: printObj (m :: fs)

end

/-- Accumulating parser for a maximal run of decimal digits. -/
def parseNatLoop : Nat → List Char → Nat × List Char
  | acc, [] => (acc, [])
  | acc, c :: cs =>
    if c.isDigit then parseNatLoop (acc * 10 + (c.toNat - 48)) cs
    else (acc, c :: cs)

/-- Unescaping of the character following a backslash in a string literal. -/
def unesc (c : Char) : Char :=
  if c = 'n' then '\n'
  else if c = 't' then '\t'
  else c

/-- Parser for the body of a string literal (after the opening quote), up to
and including the closing quote. -/
def parseStrLoop : List Char → Option (List Char × List Char)
  | [] => none
  | c :: cs =>
    if c = '"' then some ([], cs)
    else if c = '\\' then
      match cs with
      | [] => none
      | e :: cs2 =>
        match parseStrLoop cs2 with
        | some (s, r) => some (unesc e :: s, r)
        | none => none
    else
      match parseStrLoop cs with
      | some (s, r) => some (c :: s, r)
      | none => none

/-- Consume an expected literal run of characters. -/
def eat : List Char → List Char → Option (List Char)
  | [], cs => some cs
  | _ :: _, [] => none
  | p :: ps, c :: cs => if c = p then eat ps cs else none

/-- `true` when the input does not continue with another decimal digit. -/
def noDigitHead : List Char → Bool
  | [] => true
  | c :: _ => !c.isDigit

mutual

/-- Modelled from the spec: a recursive-descent JSON value parser standing in
for the standard library `JSON.parse` that `fromJSON` delegates to.  The fuel
argument bounds the recursion depth; the input length is always enough. -/
def parseVal : Nat → List Char → Option (Json × List Char)
  | 0, _ => none
  | _ + 1, [] => none
  | f + 1, c :: cs =>
    if c = 'n' then (eat ['u', 'l', 'l'] cs).map (fun r => (.jnull, r))
    else if c = 't' then (eat ['r', 'u', 'e'] cs).map (fun r => (.jbool true, r))
    else if c = 'f' then (eat ['a', 'l', 's', 'e'] cs).map (fun r => (.jbool false, r))
    else if c = '"' then (parseStrLoop cs).map (fun p => (.jstr p.1, p.2))
    else if c = '[' then
      if cs.head? = some ']' then some (.jarr [], cs.tail)
      else
        match parseItems f cs with
        | some (xs, r2) =>
          if r2.head? = some ']' then some (.jarr xs, r2.tail) else none
        | none => none
    else if c = '\x7b' then
      if cs.head? = some '\x7d' then some (.jobj [], cs.tail)
      else
        match parseMembers f cs with
        | some (fs2, r2) =>
          if r2.head? = some '\x7d' then some (.jobj fs2, r2.tail) else none
        | none => none
    else if c = '-' then
      match cs.head? with
      | some d =>
        if d.isDigit then
          some (.jnum (- Int.ofNat (parseNatLoop 0 cs).1), (parseNatLoop 0 cs).2)
        else none
      | none => none
    else if c.isDigit then
      some (.jnum (Int.ofNat (parseNatLoop 0 (c :: cs)).1), (parseNatLoop 0 (c :: cs)).2)
    else none

/-- Parse one or more comma-separated array elements. -/
def parseItems : Nat → List Char → Option (List Json × List Char)
  | 0, _ => none
  | f + 1, cs =>
    match parseVal f cs with
    | some (x, r2) =>
      if r2.head? = some ',' then
        match parseItems f r2.tail with
        | some (xs, r3) => some (x :: xs, r3)
        | none => none
      else some ([x], r2)
    | none => none

/-- Parse one or more comma-separated `"key":value` object members. -/
def parseMembers : Nat → List Char → Option (List (List Char × Json) × List Char)
  | 0, _ => none
  | f + 1, cs =>
    if cs.head? = some '"' then
      match parseStrLoop cs.tail with
      | some (k, r1) =>
        if r1.head? = some ':' then
          match parseVal f r1.tail with
          | some (v, r3) =>
            if r3.head? = some ',' then
              match parseMembers f r3.tail with
              | some (fs2, r4) => some ((k, v) :: fs2, r4)
              | none => none
            else some ([(k, v)], r3)
          | none => none
        else none
      | none => none
    else none

end

/-- `getJSON(obj)` for a plain data object: `JSON.stringify(obj)` serializes
the object's own enumerable fields (prototype methods are not own properties
and never enter the payload). -/
def getJSON (fields : List (List Char × Json)) : List Char :=
  printJson (.jobj fields)

/-- An object as `fromJSON` returns it: parsed data fields with the capability
prototype attached. -/
structure ProtoObj (P : Type) where
  fields : List (List Char × Json)
  proto : P
deriving Repr

/-- `fromJSON(proto, json)`: parse the JSON text (`JSON.parse`, modelled from
the spec, fuelled by the input length), then attach `proto` to the parsed
object (`Object.setPrototypeOf`). -/
def fromJSON (P : Type) (proto : P) (json : List Char) : Option (ProtoObj P) :=
  match parseVal json.length json with
  | some (Json.jobj fs, []) => some ⟨fs, proto⟩
  | _ => none

/-- A fragment append with rank at least the current rank and an unseen
uniqueness tag succeeds and performs exactly the bookkeeping of the source:
push the prefixed text, push the uniqueness tag (if any), store the rank. -/
lemma appendFrag_ok (k : Kind) (v : String) (st seen : List String) (r : Nat)
    (hr : r ≤ rankK k)
    (hu : ∀ t, uniqTag k = some t → t ∉ seen) :
    appendFrag ⟨k, v⟩ ⟨st, seen, some r⟩ =
      (none, ⟨st ++ [prettyK k v], seen ++ tagsOf ⟨k, v⟩, some (rankK k)⟩) := by
  cases k with
  | element =>
    have h1 := hu "element" rfl
    have h2 : ¬ (0 < r) := by simp [rankK] at hr; omega
    simp [appendFrag, CurrentBuilder.element, testUniq, testOrder, h1, h2, prettyK,
      tagsOf, uniqTag, rankK]
  | id =>
    have h1 := hu "id" rfl
    have h2 : ¬ (1 < r) := by simp [rankK] at hr; omega
    simp [appendFrag, CurrentBuilder.id, testUniq, testOrder, h1, h2, prettyK,
      tagsOf, uniqTag, rankK]
  | cls =>
    have h2 : ¬ (2 < r) := by simp [rankK] at hr; omega
    simp [appendFrag, CurrentBuilder.cls, testOrder, h2, prettyK, tagsOf, uniqTag, rankK]
  | attr =>
    have h2 : ¬ (3 < r) := by simp [rankK] at hr; omega
    simp [appendFrag, CurrentBuilder.attr, testOrder, h2, prettyK, tagsOf, uniqTag, rankK]
  | pseudoClass =>
    have h2 : ¬ (4 < r) := by simp [rankK] at hr; omega
    simp [appendFrag, CurrentBuilder.pseudoClass, testOrder, h2, prettyK, tagsOf,
      uniqTag, rankK]
  | pseudoElement =>
    have h1 := hu "pseudoElement" rfl
    have h2 : ¬ (5 < r) := by simp [rankK] at hr; omega
    simp [appendFrag, CurrentBuilder.pseudoElement, testUniq, testOrder, h1, h2, prettyK,
      tagsOf, uniqTag, rankK]

/-- Running a valid append list from any state accumulates exactly the
prefixed fragment texts, the uniqueness tags, and the last rank. -/
lemma runFrags_ok (fs : List Frag) : ∀ (st seen : List String) (r : Nat),
    okSeqB r seen fs = true →
    runFrags ⟨st, seen, some r⟩ fs =
      (none, ⟨st ++ fs.map prettyFrag, seen ++ fs.flatMap tagsOf,
        some (fs.foldl (fun _ f => rankK f.kind) r)⟩) := by
  induction fs with
  | nil => intro st seen r _; simp [runFrags]
  | cons f fs ih =>
    intro st seen r h
    simp only [okSeqB, Bool.and_eq_true, decide_eq_true_eq] at h
    obtain ⟨⟨h1, h2⟩, h3⟩ := h
    have hu : ∀ t, uniqTag f.kind = some t → t ∉ seen := by
      intro t ht
      rw [ht] at h2
      simpa using h2
    obtain ⟨k, v⟩ := f
    simp only [runFrags, appendFrag_ok k v st seen r h1 hu]
    rw [ih (st ++ [prettyK k v]) (seen ++ tagsOf ⟨k, v⟩) (rankK k) h3]
    simp [prettyFrag, List.append_assoc]

lemma testUniq_order (value : String) (b : CurrentBuilder) :
    (testUniq value b).2.order = b.order := by
  unfold testUniq; split <;> rfl

lemma testUniq_singleStack (value : String) (b : CurrentBuilder) :
    (testUniq value b).2.singleStack = b.singleStack ∨
    (testUniq value b).2.singleStack = b.singleStack ++ [value] := by
  unfold testUniq; split
  · exact Or.inl rfl
  · exact Or.inr rfl

lemma testOrder_order (value : Nat) (b : CurrentBuilder) :
    (testOrder value b).2.order = b.order ∨ (testOrder value b).2.order = some value := by
  unfold testOrder
  rcases hb : b.order with _ | o
  · exact Or.inr rfl
  · dsimp only
    split
    · exact Or.inl hb
    · exact Or.inr rfl

lemma testUniq_snd_order {value : String} {b : CurrentBuilder} {e : Option SelError}
    {b1 : CurrentBuilder} (h : testUniq value b = (e, b1)) : b1.order = b.order := by
  have hq := testUniq_order value b
  rw [h] at hq
  exact hq

lemma testOrder_snd_order {value : Nat} {b : CurrentBuilder} {e : Option SelError}
    {b1 : CurrentBuilder} (h : testOrder value b = (e, b1)) :
    b1.order = b.order ∨ b1.order = some value := by
  have hq := testOrder_order value b
  rw [h] at hq
  exact hq

/-- Every fluent append leaves the `order` field unchanged or sets it to the
rank it passed to `testOrder`. -/
lemma appendFrag_order (f : Frag) (b : CurrentBuilder) :
    (appendFrag f b).2.order = b.order ∨ (appendFrag f b).2.order = some (rankK f.kind) := by
  obtain ⟨k, v⟩ := f
  cases k with
  | element =>
    simp only [appendFrag, CurrentBuilder.element, rankK]
    split
    · rename_i e1 b1 heq
      exact Or.inl (testUniq_snd_order heq)
    · rename_i b1 heq
      have h1 := testUniq_snd_order heq
      split
      · rename_i e2 b2 heq2
        rcases testOrder_snd_order heq2 with h | h
        · exact Or.inl (h.trans h1)
        · exact Or.inr h
      · rename_i b2 heq2
        rcases testOrder_snd_order heq2 with h | h
        · exact Or.inl (h.trans h1)
        · exact Or.inr h
  | id =>
    simp only [appendFrag, CurrentBuilder.id, rankK]
    split
    · rename_i e1 b1 heq
      exact Or.inl (testUniq_snd_order heq)
    · rename_i b1 heq
      have h1 := testUniq_snd_order heq
      split
      · rename_i e2 b2 heq2
        rcases testOrder_snd_order heq2 with h | h
        · exact Or.inl (h.trans h1)
        · exact Or.inr h
      · rename_i b2 heq2
        rcases testOrder_snd_order heq2 with h | h
        · exact Or.inl (h.trans h1)
        · exact Or.inr h
  | cls =>
    simp only [appendFrag, CurrentBuilder.cls, rankK]
    split
    · rename_i e1 b1 heq
      exact testOrder_snd_order heq
    · rename_i b1 heq
      rcases testOrder_snd_order heq with h | h
      · exact Or.inl h
      · exact Or.inr h
  | attr =>
    simp only [appendFrag, CurrentBuilder.attr, rankK]
    split
    · rename_i e1 b1 heq
      exact testOrder_snd_order heq
    · rename_i b1 heq
      rcases testOrder_snd_order heq with h | h
      · exact Or.inl h
      · exact Or.inr h
  | pseudoClass =>
    simp only [appendFrag, CurrentBuilder.pseudoClass, rankK]
    split
    · rename_i e1 b1 heq
      exact testOrder_snd_order heq
    · rename_i b1 heq
      rcases testOrder_snd_order heq with h | h
      · exact Or.inl h
      · exact Or.inr h
  | pseudoElement =>
    simp only [appendFrag, CurrentBuilder.pseudoElement, rankK]
    split
    · rename_i e1 b1 heq
      exact testOrder_snd_order heq
    · rename_i b1 heq
      have h1 := testOrder_snd_order heq
      split
      · rename_i e2 b2 heq2
        have h2 := testUniq_snd_order heq2
        rcases h1 with h | h
        · exact Or.inl (h2.trans h)
        · exact Or.inr (h2.trans h)
      · rename_i b2 heq2
        have h2 := testUniq_snd_order heq2
        rcases h1 with h | h
        · exact Or.inl (h2.trans h)
        · exact Or.inr (h2.trans h)

/-- Every reachable builder keeps `order` within the rank table: at most 5. -/
lemma reachable_orderBound {b : CurrentBuilder} (hb : Reachable b) : orderBound b := by
  induction hb with
  | seed f =>
    obtain ⟨k, v⟩ := f
    intro o ho
    cases k <;>
      simp [seedFrag, cssSelectorBuilder.element, cssSelectorBuilder.id,
        cssSelectorBuilder.cls, cssSelectorBuilder.attr, cssSelectorBuilder.pseudoClass,
        cssSelectorBuilder.pseudoElement, CurrentBuilder.make] at ho <;>
      omega
  | fcombine s1 s2 c h1 h2 ih1 ih2 =>
    intro o ho
    simp [cssSelectorBuilder.combine, CurrentBuilder.make] at ho
  | step f b h ih =>
    intro o ho
    rcases appendFrag_order f b with hh | hh
    · rw [hh] at ho
      exact ih o ho
    · rw [hh] at ho
      obtain ⟨k, v⟩ := f
      cases k <;> simp [rankK] at ho <;> omega
  | consume b h ih =>
    intro o ho
    exact ih o ho
  | icombine b s1 s2 c h h1 h2 ih ih1 ih2 =>
    intro o ho
    exact ih o ho

/-- C2: once an `element`, `id`, or `pseudoElement` tag is recorded in a
reachable builder's seen-once list, appending a fragment of that same kind
throws the duplicate error, whatever else happened in between. -/
theorem duplicate_uniq_always (b : CurrentBuilder) (k : Kind) (t v : String)
    (hb : Reachable b) (ht : uniqTag k = some t) (hseen : t ∈ b.singleStack) :
    (appendFrag ⟨k, v⟩ b).1 = some SelError.duplicate := by
  have hord := reachable_orderBound hb
  cases k with
  | element =>
    simp only [uniqTag, Option.some.injEq] at ht
    subst ht
    simp [appendFrag, CurrentBuilder.element, testUniq, hseen]
  | id =>
    simp only [uniqTag, Option.some.injEq] at ht
    subst ht
    simp [appendFrag, CurrentBuilder.id, testUniq, hseen]
  | cls => simp [uniqTag] at ht
  | attr => simp [uniqTag] at ht
  | pseudoClass => simp [uniqTag] at ht
  | pseudoElement =>
    simp only [uniqTag, Option.some.injEq] at ht
    subst ht
    rcases hbo : b.order with _ | o
    · simp [appendFrag, CurrentBuilder.pseudoElement, testOrder, testUniq, hbo, hseen]
    · have h5 : ¬ (5 < o) := by
        have := hord o hbo
        omega
      simp [appendFrag, CurrentBuilder.pseudoElement, testOrder, testUniq, hbo, h5, hseen]

theorem duplicate_uniq_always_w :
    uniqTag Kind.id = some "id" ∧
    "id" ∈ (seedFrag ⟨Kind.id, "x"⟩).singleStack ∧
    (appendFrag ⟨Kind.id, "y"⟩ (seedFrag ⟨Kind.id, "x"⟩)).1 = some SelError.duplicate :=
  ⟨rfl, List.Mem.head _,
    duplicate_uniq_always _ Kind.id "id" "y" (Reachable.seed ⟨Kind.id, "x"⟩) rfl
      (List.Mem.head _)⟩

/-- C3 counterexample: on `element('a').id('b')` the current rank is 1 and a
further `element('c')` has rank 0 < 1, yet the raised error is the duplicate
error, not the out-of-order error. -/
theorem order_error_cex :
    (CurrentBuilder.id "b" (cssSelectorBuilder.element "a")).2.order = some 1 ∧
    rankK Kind.element < 1 ∧
    (CurrentBuilder.element "c" (CurrentBuilder.id "b" (cssSelectorBuilder.element "a")).2).1 =
      some SelError.duplicate ∧
    some SelError.duplicate ≠ some SelError.outOfOrder :=
  ⟨rfl, by decide, rfl, by decide⟩

/-- C3 (amended): when the appended fragment's rank is strictly below the
current rank, the append always throws: the duplicate error when the fragment
is an `element` or `id` whose uniqueness tag is already recorded (the
uniqueness check runs first for those kinds), and the out-of-order error in
every other case; appending a fragment of rank at least the current rank never
throws the out-of-order error. -/
theorem order_error_amended (b : CurrentBuilder) (k : Kind) (v : String) (r : Nat)
    (hord : b.order = some r) :
    (rankK k < r →
      (((∃ t, (k = Kind.element ∨ k = Kind.id) ∧ uniqTag k = some t ∧
            t ∈ b.singleStack) →
          (appendFrag ⟨k, v⟩ b).1 = some SelError.duplicate) ∧
        ((¬ ∃ t, (k = Kind.element ∨ k = Kind.id) ∧ uniqTag k = some t ∧
            t ∈ b.singleStack) →
          (appendFrag ⟨k, v⟩ b).1 = some SelError.outOfOrder))) ∧
    (r ≤ rankK k → (appendFrag ⟨k, v⟩ b).1 ≠ some SelError.outOfOrder) := by
  constructor
  · intro hlt
    constructor
    · rintro ⟨t, hk, ht, hmem⟩
      rcases hk with hk | hk <;> subst hk
      · simp only [uniqTag, Option.some.injEq] at ht
        subst ht
        simp [appendFrag, CurrentBuilder.element, testUniq, hmem]
      · simp only [uniqTag, Option.some.injEq] at ht
        subst ht
        simp [appendFrag, CurrentBuilder.id, testUniq, hmem]
    · intro hne
      cases k with
      | element =>
        have hmem : "element" ∉ b.singleStack := by
          intro hmem
          exact hne ⟨"element", Or.inl rfl, rfl, hmem⟩
        simp only [rankK] at hlt
        simp [appendFrag, CurrentBuilder.element, testUniq, testOrder, hmem, hord, hlt]
      | id =>
        have hmem : "id" ∉ b.singleStack := by
          intro hmem
          exact hne ⟨"id", Or.inr rfl, rfl, hmem⟩
        simp only [rankK] at hlt
        simp [appendFrag, CurrentBuilder.id, testUniq, testOrder, hmem, hord, hlt]
      | cls =>
        simp only [rankK] at hlt
        simp [appendFrag, CurrentBuilder.cls, testOrder, hord, hlt]
      | attr =>
        simp only [rankK] at hlt
        simp [appendFrag, CurrentBuilder.attr, testOrder, hord, hlt]
      | pseudoClass =>
        simp only [rankK] at hlt
        simp [appendFrag, CurrentBuilder.pseudoClass, testOrder, hord, hlt]
      | pseudoElement =>
        simp only [rankK] at hlt
        simp [appendFrag, CurrentBuilder.pseudoElement, testOrder, hord, hlt]
  · intro hge
    cases k with
    | element =>
      simp only [rankK] at hge
      have hr0 : ¬ (0 < r) := by omega
      by_cases hmem : "element" ∈ b.singleStack
      · simp [appendFrag, CurrentBuilder.element, testUniq, hmem]
      · simp [appendFrag, CurrentBuilder.element, testUniq, testOrder, hmem, hord, hr0]
    | id =>
      simp only [rankK] at hge
      have hr0 : ¬ (1 < r) := by omega
      by_cases hmem : "id" ∈ b.singleStack
      · simp [appendFrag, CurrentBuilder.id, testUniq, hmem]
      · simp [appendFrag, CurrentBuilder.id, testUniq, testOrder, hmem, hord, hr0]
    | cls =>
      simp only [rankK] at hge
      have hr0 : ¬ (2 < r) := by omega
      simp [appendFrag, CurrentBuilder.cls, testOrder, hord, hr0]
    | attr =>
      simp only [rankK] at hge
      have hr0 : ¬ (3 < r) := by omega
      simp [appendFrag, CurrentBuilder.attr, testOrder, hord, hr0]
    | pseudoClass =>
      simp only [rankK] at hge
      have hr0 : ¬ (4 < r) := by omega
      simp [appendFrag, CurrentBuilder.pseudoClass, testOrder, hord, hr0]
    | pseudoElement =>
      simp only [rankK] at hge
      have hr0 : ¬ (5 < r) := by omega
      by_cases hmem : "pseudoElement" ∈ b.singleStack
      · simp [appendFrag, CurrentBuilder.pseudoElement, testUniq, testOrder, hord, hr0, hmem]
      · simp [appendFrag, CurrentBuilder.pseudoElement, testUniq, testOrder, hord, hr0, hmem]

theorem order_error_amended_w :
    (CurrentBuilder.id "b" (cssSelectorBuilder.element "a")).2.order = some 1 ∧
    rankK Kind.element < 1 ∧
    (∃ t, (Kind.element = Kind.element ∨ Kind.element = Kind.id) ∧
      uniqTag Kind.element = some t ∧
      t ∈ (CurrentBuilder.id "b" (cssSelectorBuilder.element "a")).2.singleStack) ∧
    (appendFrag ⟨Kind.element, "c"⟩
        (CurrentBuilder.id "b" (cssSelectorBuilder.element "a")).2).1 =
      some SelError.duplicate :=
  ⟨rfl, by decide, ⟨"element", Or.inl rfl, rfl, List.Mem.head _⟩,
    ((order_error_amended (CurrentBuilder.id "b" (cssSelectorBuilder.element "a")).2
        Kind.element "c" 1 rfl).1 (by decide)).1
      ⟨"element", Or.inl rfl, rfl, List.Mem.head _⟩⟩

/-- C1: a seeding call followed by appends that respect the rank-table order
and the seen-once rules never throws, and `stringify` returns exactly the
concatenation of the prefixed fragment values in append order, with no
separator. -/
theorem build_stringify_concat (f : Frag) (fs : List Frag) (h : validSeq f fs = true) :
    (runFrags (seedFrag f) fs).1 = none ∧
    (stringify (runFrags (seedFrag f) fs).2).1 =
      String.join ((f :: fs).map prettyFrag) := by
  have hseed : seedFrag f = ⟨[prettyFrag f], [seedName f.kind], some (rankK f.kind)⟩ := by
    obtain ⟨k, v⟩ := f
    cases k <;> rfl
  rw [hseed, runFrags_ok fs [prettyFrag f] [seedName f.kind] (rankK f.kind) h]
  exact ⟨rfl, by simp [stringify]⟩

theorem build_stringify_concat_w :
    validSeq ⟨Kind.id, "main"⟩ [⟨Kind.cls, "container"⟩, ⟨Kind.cls, "editable"⟩] = true ∧
    (stringify (runFrags (seedFrag ⟨Kind.id, "main"⟩)
        [⟨Kind.cls, "container"⟩, ⟨Kind.cls, "editable"⟩]).2).1 =
      "#main.container.editable" :=
  ⟨rfl, by
    have h := build_stringify_concat ⟨Kind.id, "main"⟩
      [⟨Kind.cls, "container"⟩, ⟨Kind.cls, "editable"⟩] rfl
    exact h.2⟩

lemma join_singleton (s : String) : String.join [s] = s := by
  cases s
  rfl

/-- C4: the facade `combine` serializes to the left operand's string, then the
combinator wrapped in one space on each side when it is non-empty (and nothing
at all when it is the empty string), then the right operand's string. -/
theorem combine_stringify_spacing (s1 s2 : CurrentBuilder) (c : String) :
    (stringify (cssSelectorBuilder.combine s1 c s2).1).1 =
      (stringify s1).1 ++ (if c = "" then "" else " " ++ c ++ " ") ++ (stringify s2).1 := by
  by_cases hc : c = ""
  · subst hc
    simp [cssSelectorBuilder.combine, CurrentBuilder.make, stringify, join_singleton]
  · simp [cssSelectorBuilder.combine, CurrentBuilder.make, stringify, join_singleton, hc]

/-- C5 counterexample: with the single-space combinator the two serialized
selectors end up separated by three spaces, not two. -/
theorem combine_space_two_cex :
    (stringify (cssSelectorBuilder.combine (cssSelectorBuilder.element "a") " "
        (cssSelectorBuilder.element "b")).1).1 = "a   b" ∧
    ("a   b" : String) ≠ "a  b" :=
  ⟨rfl, by decide⟩

/-- C5 (amended): with the single-space combinator token the two serialized
selectors are separated by exactly three space characters (the token wrapped in
one space on each side). -/
theorem combine_space_three (s1 s2 : CurrentBuilder) :
    (stringify (cssSelectorBuilder.combine s1 " " s2).1).1 =
      (stringify s1).1 ++ "   " ++ (stringify s2).1 := by
  have h : (if (" " : String) = "" then (" " : String) else " " ++ " " ++ " ") = "   " := by
    decide
  simp only [cssSelectorBuilder.combine, CurrentBuilder.make, h]
  simp [stringify, join_singleton]

/-- C6 counterexample: a rejected duplicate append carries the message spelled
with 'then', so it differs from the claimed message spelled with 'than'. -/
theorem dup_message_cex :
    (CurrentBuilder.element "b" (cssSelectorBuilder.element "a")).1 =
      some SelError.duplicate ∧
    errMessage SelError.duplicate ≠
      "Element, id and pseudo-element should not occur more than one time inside the selector." :=
  ⟨rfl, by decide⟩

/-- C6 (amended): whenever a duplicate append is rejected, the error raised
carries exactly the message "Element, id and pseudo-element should not occur
more then one time inside the selector" (spelled 'then', no final period). -/
theorem dup_message_then (b : CurrentBuilder) (f : Frag)
    (h : (appendFrag f b).1 = some SelError.duplicate) :
    ∃ e, (appendFrag f b).1 = some e ∧
      errMessage e =
        "Element, id and pseudo-element should not occur more then one time inside the selector" :=
  ⟨SelError.duplicate, h, rfl⟩

theorem dup_message_then_w :
    (appendFrag ⟨Kind.element, "b"⟩ (cssSelectorBuilder.element "a")).1 =
      some SelError.duplicate ∧
    ∃ e, (appendFrag ⟨Kind.element, "b"⟩ (cssSelectorBuilder.element "a")).1 = some e ∧
      errMessage e =
        "Element, id and pseudo-element should not occur more then one time inside the selector" :=
  ⟨rfl, dup_message_then (cssSelectorBuilder.element "a") ⟨Kind.element, "b"⟩ rfl⟩

/-- C7: `stringify` returns the concatenation of the accumulated parts and
clears them, so a second call before any new append returns the empty
string. -/
theorem stringify_clears (b : CurrentBuilder) :
    (stringify b).1 = String.join b.stack ∧
    (stringify b).2.stack = [] ∧
    (stringify (stringify b).2).1 = "" :=
  ⟨rfl, rfl, rfl⟩

/-- C8: an `element` or `id` append that fails the order check appends nothing
to the stack but has already recorded its uniqueness tag, so repeating the same
kind afterwards throws the duplicate error even though no fragment of that kind
was ever successfully appended. -/
theorem failed_append_records_tag (b : CurrentBuilder) (k : Kind) (t v w : String) (r : Nat)
    (hk : k = Kind.element ∨ k = Kind.id) (ht : uniqTag k = some t)
    (hord : b.order = some r) (hr : rankK k < r) (hseen : t ∉ b.singleStack) :
    (appendFrag ⟨k, v⟩ b).1 = some SelError.outOfOrder ∧
    (appendFrag ⟨k, v⟩ b).2.stack = b.stack ∧
    t ∈ (appendFrag ⟨k, v⟩ b).2.singleStack ∧
    (appendFrag ⟨k, w⟩ (appendFrag ⟨k, v⟩ b).2).1 = some SelError.duplicate := by
  rcases hk with hk | hk <;> subst hk
  · simp only [uniqTag, Option.some.injEq] at ht
    subst ht
    simp only [rankK] at hr
    simp [appendFrag, CurrentBuilder.element, testUniq, testOrder, hseen, hord, hr]
  · simp only [uniqTag, Option.some.injEq] at ht
    subst ht
    simp only [rankK] at hr
    simp [appendFrag, CurrentBuilder.id, testUniq, testOrder, hseen, hord, hr]

theorem failed_append_records_tag_w :
    (Kind.element = Kind.element ∨ Kind.element = Kind.id) ∧
    uniqTag Kind.element = some "element" ∧
    (cssSelectorBuilder.id "x").order = some 1 ∧
    rankK Kind.element < 1 ∧
    "element" ∉ (cssSelectorBuilder.id "x").singleStack ∧
    ((appendFrag ⟨Kind.element, "a"⟩ (cssSelectorBuilder.id "x")).1 =
        some SelError.outOfOrder ∧
      (appendFrag ⟨Kind.element, "a"⟩ (cssSelectorBuilder.id "x")).2.stack =
        (cssSelectorBuilder.id "x").stack ∧
      "element" ∈ (appendFrag ⟨Kind.element, "a"⟩ (cssSelectorBuilder.id "x")).2.singleStack ∧
      (appendFrag ⟨Kind.element, "b"⟩
          (appendFrag ⟨Kind.element, "a"⟩ (cssSelectorBuilder.id "x")).2).1 =
        some SelError.duplicate) :=
  ⟨Or.inl rfl, rfl, rfl, by decide, by decide,
    failed_append_records_tag (cssSelectorBuilder.id "x") Kind.element "element" "a" "b" 1
      (Or.inl rfl) rfl rfl (by decide) (by decide)⟩

/-- C9: both combine forms consume their operands: each operand is stringified
during the combine, so stringifying it again immediately afterwards yields the
empty string. -/
theorem combine_consumes_operands (x s1 s2 : CurrentBuilder) (c : String) :
    (stringify (cssSelectorBuilder.combine s1 c s2).2.1).1 = "" ∧
    (stringify (cssSelectorBuilder.combine s1 c s2).2.2).1 = "" ∧
    (stringify (CurrentBuilder.combine x s1 c s2).2.1).1 = "" ∧
    (stringify (CurrentBuilder.combine x s1 c s2).2.2).1 = "" :=
  ⟨rfl, rfl, rfl, rfl⟩

lemma eat_self (p rest : List Char) : eat p (p ++ rest) = some rest := by
  induction p with
  | nil => rfl
  | cons c cs ih => simp [eat, ih]

lemma digitChar_isDigit {n : Nat} (h : n < 10) : (digitChar n).isDigit = true := by
  interval_cases n <;> decide

lemma digitChar_val {n : Nat} (h : n < 10) : (digitChar n).toNat - 48 = n := by
  interval_cases n <;> decide

lemma printNatAux_fuel : ∀ (n f1 f2 : Nat), n < f1 → n < f2 →
    printNatAux f1 n = printNatAux f2 n := by
  intro n
  induction n using Nat.strong_induction_on with
  | _ n ih =>
    intro f1 f2 h1 h2
    rcases f1 with _ | f1
    · omega
    rcases f2 with _ | f2
    · omega
    by_cases h : n < 10
    · simp [printNatAux, h]
    · simp only [printNatAux, if_neg h]
      rw [ih (n / 10) (by omega) f1 f2 (by omega) (by omega)]

lemma printNat_lt10 {n : Nat} (h : n < 10) : printNat n = [digitChar n] := by
  simp [printNat, printNatAux, h]

lemma printNat_ge10 {n : Nat} (h : 10 ≤ n) :
    printNat n = printNat (n / 10) ++ [digitChar (n % 10)] := by
  have hne : ¬ n < 10 := by omega
  show printNatAux (n + 1) n = printNatAux (n / 10 + 1) (n / 10) ++ [digitChar (n % 10)]
  rw [show printNatAux (n + 1) n =
      if n < 10 then [digitChar n] else printNatAux n (n / 10) ++ [digitChar (n % 10)] from rfl]
  rw [if_neg hne, printNatAux_fuel (n / 10) n (n / 10 + 1) (by omega) (by omega)]

lemma parseNatLoop_printNat : ∀ (n : Nat), ∀ (acc : Nat) (rest : List Char),
    parseNatLoop acc (printNat n ++ rest) =
      parseNatLoop (acc * 10 ^ (printNat n).length + n) rest := by
  intro n
  induction n using Nat.strong_induction_on with
  | _ n ih =>
    intro acc rest
    by_cases h : n < 10
    · rw [printNat_lt10 h]
      simp [parseNatLoop, digitChar_isDigit h, digitChar_val h]
    · rw [printNat_ge10 (by omega)]
      rw [List.append_assoc, List.singleton_append]
      rw [ih (n / 10) (by omega) acc (digitChar (n % 10) :: rest)]
      have hd : (n % 10) < 10 := by omega
      simp only [parseNatLoop, digitChar_isDigit hd, if_pos, digitChar_val hd]
      have hlen : (printNat (n / 10) ++ [digitChar (n % 10)]).length =
          (printNat (n / 10)).length + 1 := by simp
      rw [hlen]
      congr 1
      have : (acc * 10 ^ (printNat (n / 10)).length + n / 10) * 10 + n % 10 =
          acc * (10 ^ (printNat (n / 10)).length * 10) + (n / 10 * 10 + n % 10) := by ring
      rw [this, pow_succ]
      omega

lemma parseNatLoop_stop (m : Nat) (rest : List Char) (h : noDigitHead rest = true) :
    parseNatLoop m rest = (m, rest) := by
  cases rest with
  | nil => rfl
  | cons c cs =>
    simp only [noDigitHead, Bool.not_eq_true'] at h
    simp [parseNatLoop, h]

lemma parseNatLoop_print (n : Nat) (rest : List Char) (h : noDigitHead rest = true) :
    parseNatLoop 0 (printNat n ++ rest) = (n, rest) := by
  rw [parseNatLoop_printNat n 0 rest]
  simp [parseNatLoop_stop _ _ h]

lemma parseStrLoop_quote (cs : List Char) : parseStrLoop ('"' :: cs) = some ([], cs) := by
  rw [parseStrLoop.eq_def]
  simp

lemma parseStrLoop_esc (e : Char) (cs : List Char) :
    parseStrLoop ('\\' :: e :: cs) =
      match parseStrLoop cs with
      | some (s, r) => some (unesc e :: s, r)
      | none => none := by
  rw [parseStrLoop.eq_def]
  simp

lemma parseStrLoop_other {c : Char} (h1 : c ≠ '"') (h2 : c ≠ '\\') (cs : List Char) :
    parseStrLoop (c :: cs) =
      match parseStrLoop cs with
      | some (s, r) => some (c :: s, r)
      | none => none := by
  rw [parseStrLoop.eq_def]
  simp [h1, h2]

lemma parseStrLoop_print (s rest : List Char) :
    parseStrLoop (s.flatMap escChar ++ '"' :: rest) = some (s, rest) := by
  induction s with
  | nil => exact parseStrLoop_quote rest
  | cons c s ih =>
    rw [List.flatMap_cons, List.append_assoc]
    by_cases h1 : c = '"'
    · subst h1
      rw [show escChar '"' = ['\\', '"'] from rfl]
      rw [List.cons_append, List.cons_append, List.nil_append, parseStrLoop_esc, ih]
      rfl
    · by_cases h2 : c = '\\'
      · subst h2
        rw [show escChar '\\' = ['\\', '\\'] from rfl]
        rw [List.cons_append, List.cons_append, List.nil_append, parseStrLoop_esc, ih]
        rfl
      · rw [show escChar c = [c] from by simp [escChar, h1, h2]]
        rw [List.singleton_append, parseStrLoop_other h1 h2, ih]

lemma isDigit_ne_special {c : Char} (h : c.isDigit = true) :
    c ≠ 'n' ∧ c ≠ 't' ∧ c ≠ 'f' ∧ c ≠ '"' ∧ c ≠ '[' ∧ c ≠ '\x7b' ∧ c ≠ '-' := by
  refine ⟨?_, ?_, ?_, ?_, ?_, ?_, ?_⟩ <;>
    (intro hc; subst hc; exact absurd h (by decide))

lemma printNat_head (n : Nat) : ∃ c t, printNat n = c :: t ∧ c.isDigit = true := by
  by_cases h : n < 10
  · exact ⟨digitChar n, [], printNat_lt10 h, digitChar_isDigit h⟩
  · obtain ⟨c, t, hct, hd⟩ := printNat_head (n / 10)
    refine ⟨c, t ++ [digitChar (n % 10)], ?_, hd⟩
    rw [printNat_ge10 (by omega), hct]
    rfl
termination_by n
decreasing_by omega

lemma printJson_head (v : Json) :
    ∃ c t, printJson v = c :: t ∧ c ≠ ']' ∧ c ≠ '\x7d' ∧ c ≠ ',' := by
  cases v with
  | jnull =>
    exact ⟨'n', ['u', 'l', 'l'], by simp [printJson], by decide, by decide, by decide⟩
  | jbool b =>
    cases b
    · exact ⟨'f', ['a', 'l', 's', 'e'], by simp [printJson], by decide, by decide, by decide⟩
    · exact ⟨'t', ['r', 'u', 'e'], by simp [printJson], by decide, by decide, by decide⟩
  | jnum n =>
    cases n with
    | ofNat m =>
      obtain ⟨c, t, hct, hd⟩ := printNat_head m
      refine ⟨c, t, by simp [printJson, printInt, hct], ?_, ?_, ?_⟩ <;>
        (intro hc; subst hc; exact absurd hd (by decide))
    | negSucc m =>
      exact ⟨'-', printNat (m + 1), by simp [printJson, printInt], by decide, by decide,
        by decide⟩
  | jstr s =>
    exact ⟨'"', s.flatMap escChar ++ ['"'], by simp [printJson, printStr], by decide,
      by decide, by decide⟩
  | jarr xs =>
    exact ⟨'[', printArr xs ++ [']'], by simp [printJson], by decide, by decide, by decide⟩
  | jobj fs =>
    exact ⟨'\x7b', printObj fs ++ ['\x7d'], by simp [printJson], by decide, by decide,
      by decide⟩

lemma parseVal_null (f : Nat) (cs : List Char) :
    parseVal (f + 1) ('n' :: cs) = (eat ['u', 'l', 'l'] cs).map (fun r => (.jnull, r)) := by
  rw [parseVal.eq_def]
  simp

lemma parseVal_true (f : Nat) (cs : List Char) :
    parseVal (f + 1) ('t' :: cs) = (eat ['r', 'u', 'e'] cs).map (fun r => (.jbool true, r)) := by
  rw [parseVal.eq_def]
  simp

lemma parseVal_false (f : Nat) (cs : List Char) :
    parseVal (f + 1) ('f' :: cs) =
      (eat ['a', 'l', 's', 'e'] cs).map (fun r => (.jbool false, r)) := by
  rw [parseVal.eq_def]
  simp

lemma parseVal_quote (f : Nat) (cs : List Char) :
    parseVal (f + 1) ('"' :: cs) = (parseStrLoop cs).map (fun p => (.jstr p.1, p.2)) := by
  rw [parseVal.eq_def]
  simp

lemma parseVal_lbrack (f : Nat) (cs : List Char) :
    parseVal (f + 1) ('[' :: cs) =
      if cs.head? = some ']' then some (.jarr [], cs.tail)
      else
        match parseItems f cs with
        | some (xs, r2) =>
          if r2.head? = some ']' then some (.jarr xs, r2.tail) else none
        | none => none := by
  rw [parseVal.eq_def]
  simp

lemma parseVal_lbrace (f : Nat) (cs : List Char) :
    parseVal (f + 1) ('\x7b' :: cs) =
      if cs.head? = some '\x7d' then some (.jobj [], cs.tail)
      else
        match parseMembers f cs with
        | some (fs2, r2) =>
          if r2.head? = some '\x7d' then some (.jobj fs2, r2.tail) else none
        | none => none := by
  rw [parseVal.eq_def]
  simp

lemma parseVal_neg (f : Nat) (cs : List Char) :
    parseVal (f + 1) ('-' :: cs) =
      match cs.head? with
      | some d =>
        if d.isDigit then
          some (.jnum (- Int.ofNat (parseNatLoop 0 cs).1), (parseNatLoop 0 cs).2)
        else none
      | none => none := by
  rw [parseVal.eq_def]
  simp

lemma parseVal_digit {c : Char} (h : c.isDigit = true) (f : Nat) (cs : List Char) :
    parseVal (f + 1) (c :: cs) =
      some (.jnum (Int.ofNat (parseNatLoop 0 (c :: cs)).1), (parseNatLoop 0 (c :: cs)).2) := by
  obtain ⟨h1, h2, h3, h4, h5, h6, h7⟩ := isDigit_ne_special h
  rw [parseVal.eq_def]
  simp [h1, h2, h3, h4, h5, h6, h7, h]

lemma parseItems_succ (f : Nat) (cs : List Char) :
    parseItems (f + 1) cs =
      match parseVal f cs with
      | some (x, r2) =>
        if r2.head? = some ',' then
          match parseItems f r2.tail with
          | some (xs, r3) => some (x :: xs, r3)
          | none => none
        else some ([x], r2)
      | none => none := by
  rw [parseItems.eq_def]

lemma parseMembers_succ (f : Nat) (cs : List Char) :
    parseMembers (f + 1) cs =
      if cs.head? = some '"' then
        (match parseStrLoop cs.tail with
         | some (k, r1) =>
           if r1.head? = some ':' then
             (match parseVal f r1.tail with
              | some (v, r3) =>
                if r3.head? = some ',' then
                  (match parseMembers f r3.tail with
                   | some (fs2, r4) => some ((k, v) :: fs2, r4)
                   | none => none)
                else some ([(k, v)], r3)
              | none => none)
           else none
         | none => none)
      else none := by
  rw [parseMembers.eq_def]

lemma printArr_eq_cons (x : Json) (xs : List Json) :
    ∃ u, printArr (x :: xs) = printJson x ++ u := by
  cases xs with
  | nil => exact ⟨[], by simp [printArr]⟩
  | cons y ys => exact ⟨',' :: printArr (y :: ys), by simp [printArr]⟩

lemma eat_ull (rest : List Char) : eat ['u', 'l', 'l'] ('u' :: 'l' :: 'l' :: rest) = some rest := by
  simp [eat]

lemma eat_rue (rest : List Char) : eat ['r', 'u', 'e'] ('r' :: 'u' :: 'e' :: rest) = some rest := by
  simp [eat]

lemma eat_alse (rest : List Char) :
    eat ['a', 'l', 's', 'e'] ('a' :: 'l' :: 's' :: 'e' :: rest) = some rest := by
  simp [eat]

lemma printObj_shape (k : List Char) (w : Json) (fs : List (List Char × Json)) :
    ∃ t, printObj ((k, w) :: fs) = '"' :: t := by
  cases fs with
  | nil =>
    exact ⟨k.flatMap escChar ++ '"' :: ':' :: printJson w, by simp [printObj, printStr]⟩
  | cons m fs2 =>
    exact ⟨k.flatMap escChar ++ '"' :: ':' :: (printJson w ++ ',' :: printObj (m :: fs2)),
      by simp [printObj, printStr]⟩

/-- Parsing inverts printing, at any fuel at least the input length: jointly
for values, non-empty array bodies, and non-empty object bodies (induction on
the fuel, which every recursive parser call strictly decreases). -/
theorem parseAll_print : ∀ f : Nat,
    (∀ v rest, (printJson v).length ≤ f → noDigitHead rest = true →
      parseVal f (printJson v ++ rest) = some (v, rest)) ∧
    (∀ x xs rest, (printArr (x :: xs)).length + 1 ≤ f →
      parseItems f (printArr (x :: xs) ++ ']' :: rest) = some (x :: xs, ']' :: rest)) ∧
    (∀ k v fs rest, (printObj ((k, v) :: fs)).length + 1 ≤ f →
      parseMembers f (printObj ((k, v) :: fs) ++ '\x7d' :: rest) =
        some ((k, v) :: fs, '\x7d' :: rest)) := by
  intro f
  induction f using Nat.strong_induction_on with
  | _ f ih =>
    refine ⟨?_, ?_, ?_⟩
    · intro v rest hf hrest
      cases v with
      | jnull =>
        rw [show printJson Json.jnull = ['n', 'u', 'l', 'l'] from by simp [printJson]] at hf ⊢
        rcases f with _ | f
        · simp at hf
        · simp [parseVal_null, eat_ull]
      | jbool b =>
        cases b
        · rw [show printJson (Json.jbool false) = ['f', 'a', 'l', 's', 'e'] from by
            simp [printJson]] at hf ⊢
          rcases f with _ | f
          · simp at hf
          · simp [parseVal_false, eat_alse]
        · rw [show printJson (Json.jbool true) = ['t', 'r', 'u', 'e'] from by
            simp [printJson]] at hf ⊢
          rcases f with _ | f
          · simp at hf
          · simp [parseVal_true, eat_rue]
      | jnum n =>
        cases n with
        | ofNat m =>
          have hpj : printJson (Json.jnum (Int.ofNat m)) = printNat m := by
            simp [printJson, printInt]
          rw [hpj] at hf ⊢
          obtain ⟨c, t, hct, hd⟩ := printNat_head m
          rcases f with _ | f
          · rw [hct] at hf
            simp at hf
          · rw [hct, List.cons_append, parseVal_digit hd, ← List.cons_append, ← hct,
              parseNatLoop_print m rest hrest]
        | negSucc m =>
          have hpj : printJson (Json.jnum (Int.negSucc m)) = '-' :: printNat (m + 1) := by
            simp [printJson, printInt]
          rw [hpj] at hf ⊢
          rcases f with _ | f
          · simp at hf
          · obtain ⟨c, t, hct, hd⟩ := printNat_head (m + 1)
            rw [List.cons_append, parseVal_neg, hct, List.cons_append]
            simp only [List.head?_cons, hd, if_pos]
            rw [← List.cons_append, ← hct, parseNatLoop_print (m + 1) rest hrest]
            have hneg : - Int.ofNat (m + 1) = Int.negSucc m := by
              rw [Int.negSucc_eq]
              simp
            rw [hneg]
      | jstr s =>
        have hpj : printJson (Json.jstr s) = '"' :: (s.flatMap escChar ++ ['"']) := by
          simp [printJson, printStr]
        rw [hpj] at hf ⊢
        rcases f with _ | f
        · simp at hf
        · rw [List.cons_append, parseVal_quote, List.append_assoc, List.singleton_append,
            parseStrLoop_print s rest]
          rfl
      | jarr xs =>
        cases xs with
        | nil =>
          rw [show printJson (Json.jarr []) = ['[', ']'] from by simp [printJson, printArr]]
            at hf ⊢
          rcases f with _ | f
          · simp at hf
          · simp [parseVal_lbrack]
        | cons x xs =>
          have hpj : printJson (Json.jarr (x :: xs)) =
              '[' :: (printArr (x :: xs) ++ [']']) := by
            simp [printJson]
          rw [hpj] at hf ⊢
          rcases f with _ | f
          · simp at hf
          · rw [List.cons_append, parseVal_lbrack, List.append_assoc, List.singleton_append]
            obtain ⟨u, hu⟩ := printArr_eq_cons x xs
            obtain ⟨c, t, hct, hne1, hne2, hne3⟩ := printJson_head x
            have hhead : (printArr (x :: xs) ++ ']' :: rest).head? = some c := by
              rw [hu, hct]
              simp
            rw [if_neg (by rw [hhead]; simp [hne1])]
            have hfi : (printArr (x :: xs)).length + 1 ≤ f := by
              simp at hf
              omega
            rw [(ih f (by omega)).2.1 x xs rest hfi]
            simp
      | jobj fs =>
        cases fs with
        | nil =>
          rw [show printJson (Json.jobj []) = ['\x7b', '\x7d'] from by
            simp [printJson, printObj]] at hf ⊢
          rcases f with _ | f
          · simp at hf
          · simp [parseVal_lbrace]
        | cons m fs2 =>
          obtain ⟨k, w⟩ := m
          have hpj : printJson (Json.jobj ((k, w) :: fs2)) =
              '\x7b' :: (printObj ((k, w) :: fs2) ++ ['\x7d']) := by
            simp [printJson]
          rw [hpj] at hf ⊢
          rcases f with _ | f
          · simp at hf
          · rw [List.cons_append, parseVal_lbrace, List.append_assoc, List.singleton_append]
            obtain ⟨t0, ht0⟩ := printObj_shape k w fs2
            have hhead : (printObj ((k, w) :: fs2) ++ '\x7d' :: rest).head? = some '"' := by
              rw [ht0]
              simp
            rw [if_neg (by rw [hhead]; simp)]
            have hfm : (printObj ((k, w) :: fs2)).length + 1 ≤ f := by
              simp at hf
              omega
            rw [(ih f (by omega)).2.2 k w fs2 rest hfm]
            simp
    · intro x xs rest hf
      rcases f with _ | f
      · omega
      rw [parseItems_succ]
      cases xs with
      | nil =>
        rw [show printArr [x] = printJson x from by simp [printArr]] at hf ⊢
        have hfx : (printJson x).length ≤ f := by omega
        rw [(ih f (by omega)).1 x (']' :: rest) hfx rfl]
        simp
      | cons y ys =>
        rw [show printArr (x :: y :: ys) = printJson x ++ ',' :: printArr (y :: ys) from by
          simp [printArr]] at hf ⊢
        rw [List.append_assoc, List.cons_append]
        have hfx : (printJson x).length ≤ f := by
          simp at hf
          omega
        rw [(ih f (by omega)).1 x (',' :: (printArr (y :: ys) ++ ']' :: rest)) hfx rfl]
        have hfr : (printArr (y :: ys)).length + 1 ≤ f := by
          simp at hf
          omega
        simp [(ih f (by omega)).2.1 y ys rest hfr]
    · intro k v fs rest hf
      rcases f with _ | f
      · omega
      rw [parseMembers_succ]
      cases fs with
      | nil =>
        rw [show printObj [(k, v)] = '"' :: (k.flatMap escChar ++ '"' :: ':' :: printJson v)
          from by simp [printObj, printStr]] at hf ⊢
        rw [List.cons_append]
        simp only [List.head?_cons, List.tail_cons, if_pos]
        rw [List.append_assoc, List.cons_append, List.cons_append,
          parseStrLoop_print k (':' :: (printJson v ++ '\x7d' :: rest))]
        simp only [List.head?_cons, List.tail_cons, if_pos]
        have hfv : (printJson v).length ≤ f := by
          simp at hf
          omega
        rw [(ih f (by omega)).1 v ('\x7d' :: rest) hfv rfl]
        simp
      | cons m fs2 =>
        obtain ⟨k2, v2⟩ := m
        rw [show printObj ((k, v) :: (k2, v2) :: fs2) =
            '"' :: (k.flatMap escChar ++ '"' :: ':' ::
              (printJson v ++ ',' :: printObj ((k2, v2) :: fs2)))
          from by simp [printObj, printStr]] at hf ⊢
        rw [List.cons_append]
        simp only [List.head?_cons, List.tail_cons, if_pos]
        rw [List.append_assoc, List.cons_append, List.cons_append, List.append_assoc,
          List.cons_append,
          parseStrLoop_print k (':' :: (printJson v ++ ',' :: (printObj ((k2, v2) :: fs2) ++
            '\x7d' :: rest)))]
        simp only [List.head?_cons, List.tail_cons, if_pos]
        have hfv : (printJson v).length ≤ f := by
          simp at hf
          omega
        rw [(ih f (by omega)).1 v (',' :: (printObj ((k2, v2) :: fs2) ++ '\x7d' :: rest))
          hfv rfl]
        have hfm : (printObj ((k2, v2) :: fs2)).length + 1 ≤ f := by
          simp at hf
          omega
        simp [(ih f (by omega)).2.2 k2 v2 fs2 rest hfm]

/-- Parsing inverts printing for any JSON value at fuel at least the input
length. -/
lemma parseVal_print (v : Json) (f : Nat) (rest : List Char)
    (hf : (printJson v).length ≤ f) (hrest : noDigitHead rest = true) :
    parseVal f (printJson v ++ rest) = some (v, rest) :=
  (parseAll_print f).1 v rest hf hrest

/-- C10: serializing a plain data object and deserializing it with a
capability prototype reproduces the data fields exactly, and the prototype on
the result is the one passed to `fromJSON`, not anything carried through the
JSON payload. -/
theorem fromJSON_getJSON_roundtrip (P : Type) (proto : P) (d : List (List Char × Json)) :
    fromJSON P proto (getJSON d) = some ⟨d, proto⟩ := by
  unfold fromJSON getJSON
  have h := parseVal_print (Json.jobj d) (printJson (Json.jobj d)).length [] le_rfl rfl
  rw [List.append_nil] at h
  rw [h]
